import Mathlib

set_option maxRecDepth 40000

/-!
Shallow embedding of `fts_depends` (src/src/main.rs) and verification of the
spec's claims about it.  Text (report output, module names, paths) is modelled
as `List Char`; the filesystem, the PATH, the external analysis utility
(`dumpbin`) and the out-of-scope `find_dumpbin` search are an explicit `World`
record.  Fallible Rust code returns an explicit result type, and Rust panics
(`expect`/`unwrap`/slice-out-of-range) are a distinguished constructor.
Recursion of `find_deps` is fuel-indexed; running out of fuel is its own
distinguished outcome so that termination is a provable statement, not an
assumption.
-/

namespace FtsDepends

/-- Text is a list of characters. -/
abbrev S := List Char

/-- ASCII restriction of Rust `char::is_whitespace` (the characters that occur
in `dumpbin` reports and paths). -/
def isWs (c : Char) : Bool := c = ' ' || c = '\t' || c = '\n' || c = '\r'

/-- Rust `str::trim_start` (on the modelled character set). -/
def trimLeft (x : S) : S := x.dropWhile isWs

/-- Rust `str::trim_end`. -/
def trimRight (x : S) : S := (x.reverse.dropWhile isWs).reverse

/-- Rust `str::trim`. -/
def trim (x : S) : S := trimRight (trimLeft x)

/-- Split at every newline character (Rust `str::split('\n')`); the result is
always non-empty. -/
def splitNl : S → List S
  | [] => [[]]
  | c :: rest =>
    match splitNl rest with
    | [] => [[c]]
    | h :: t => if c = '\n' then [] :: h :: t else (c :: h) :: t

/-- Strip one trailing carriage return, as Rust `str::lines` does per line. -/
def stripCR (x : S) : S :=
  match x.reverse with
  | '\r' :: r => r.reverse
  | _ => x

/-- Rust `str::lines`: split on newline, drop a final empty piece (produced by
a terminating newline), strip a trailing CR from each line. -/
def splitLines (x : S) : List S :=
  let ps := splitNl x
  let ps := if ps.getLast? = some [] then ps.dropLast else ps
  ps.map stripCR

/-- Rust `str::find` for a pattern string: index of the first occurrence. -/
def findSub (pat : S) : S → Option Nat
  | [] => if pat.isPrefixOf [] then some 0 else none
  | c :: rest =>
    if pat.isPrefixOf (c :: rest) then some 0
    else (findSub pat rest).map (· + 1)

/-- Rust `str::contains` for a pattern string. -/
def containsSub (pat x : S) : Bool := (findSub pat x).isSome

/-- Rust `str::to_lowercase` (ASCII restriction). -/
def toLowerS (x : S) : S := x.map Char.toLower

/-- Outcome of a Rust function that may return `Err` or panic. -/
inductive PRes (α : Type) where
  | ok (a : α)
  | err (msg : S)
  | panicked (msg : S)
deriving DecidableEq

/-- The `start_str` marker of `extract_deps` (src line 218). -/
def startMarker : S := "Image has the following dependencies:".data

/-- The delay-load marker filtered out by `extract_deps` (src line 231). -/
def delayMarker : S := "Image has the following delay load dependencies:".data

/-- The `end_str` marker of `extract_deps` (src line 219). -/
def summaryMarker : S := "Summary".data

/-- Message of the `anyhow!` error on a missing primary marker (src line 223). -/
def noDepsMsg : S := "no dependencies".data

/-- Message of the `expect` panic on a missing `Summary` (src line 224). -/
def noSummaryMsg : S := "failed to find summary".data

/-- Stands for the Rust panic raised by slicing with a reversed byte range. -/
def sliceMsg : S := "slice index starts at larger index".data

/-- The line filter of `extract_deps` (src lines 230..231): keep non-empty
lines that are not the delay-load marker line. -/
def lineKeep (line : S) : Bool := !line.isEmpty && !(line == delayMarker)

/-- The line pipeline of `extract_deps` (src lines 227..232): split into
lines, trim each, filter. -/
def pipeline (x : S) : List S := ((splitLines x).map trim).filter lineKeep

/-- The same pipeline over the raw newline split; proved below to agree with
`pipeline`. -/
def pipeRaw (x : S) : List S := ((splitNl x).map trim).filter lineKeep

/-- `extract_deps` from src/src/main.rs lines 216..235: find the primary
marker (its absence is an `anyhow` error), find `Summary` (its absence is an
`expect` panic), slice the text between them (a reversed range is a Rust
panic), trim, and run the line pipeline. -/
def extract_deps (dumpbin_str : S) : PRes (List S) :=
  match findSub startMarker dumpbin_str with
  | none => .err noDepsMsg
  | some start_idx =>
    match findSub summaryMarker dumpbin_str with
    | none => .panicked noSummaryMsg
    | some end_idx =>
      if end_idx < start_idx + startMarker.length then .panicked sliceMsg
      else
        .ok (pipeline
          (trim ((dumpbin_str.take end_idx).drop (start_idx + startMarker.length))))

/-- Windows path separators. -/
def isSep (c : Char) : Bool := c = '\\' || c = '/'

/-- Whether a module string is a path rather than a bare name. -/
def hasSep (x : S) : Bool := x.any isSep

/-- Rust `Path::file_name` on the paths this program meets: the part after the
last separator; `None` for the empty path. -/
def fileName (p : S) : Option S :=
  if p = [] then none
  else some ((p.reverse.takeWhile (fun c => !isSep c)).reverse)

/-- Rust `Path::parent` on the paths this program meets: the part before the
last separator, `Some ""` when there is no separator, `None` for the empty
path. -/
def parent (p : S) : Option S :=
  if p = [] then none
  else some (((p.reverse.dropWhile (fun c => !isSep c)).drop 1).reverse)

/-- Joining a directory and a bare file name. -/
def joinPath (dir name : S) : S := if dir = [] then name else dir ++ '\\' :: name

/-- Result of one invocation of the external analysis utility: the spawn can
fail (a Rust `expect` panic in `find_deps`), its stdout can fail UTF-8
decoding (an error), or it yields report text. -/
inductive UtilOut where
  | spawnFail
  | badUtf8
  | okOut (text : S)
deriving DecidableEq

/-- The environment of one run: the set of existing files, the directories of
the standard executable search path, the analysis utility's behaviour per
resolved module location, and the outcome of the out-of-scope `find_dumpbin`
directory walk. -/
structure World where
  fs : List S
  pathDirs : List S
  output : S → UtilOut
  dumpbinFound : Option S

/-- Modelled from the spec: `which::which_in` (LocationResolver step 1,
spec section 4.2), the external crate call in `find_location`.  A bare name is
looked up as a file of the preferred directory; a string that is already a
path is checked directly against the filesystem. -/
def whichIn (w : World) (target dir : S) : Option S :=
  if hasSep target then
    if w.fs.contains target then some target else none
  else
    let cand := joinPath dir target
    if w.fs.contains cand then some cand else none

/-- Modelled from the spec: `which::which` (LocationResolver step 2, spec
section 4.2), the fallback over the process's standard executable search
path. -/
def whichPath (w : World) (target : S) : Option S :=
  if hasSep target then
    if w.fs.contains target then some target else none
  else
    (w.pathDirs.map (fun d => joinPath d target)).find? (fun c => w.fs.contains c)

/-- `find_location` from src/src/main.rs lines 211..214: the preferred
directory first, the standard search path only on failure. -/
def find_location (w : World) (target target_dir : S) : Option S :=
  match whichIn w target target_dir with
  | some p => some p
  | none => whichPath w target

/-- The `Dependency` tree node of src/src/main.rs lines 22..27. -/
inductive Dependency where
  | mk (name : S) (path : Option S) (children : List Dependency)

/-- Name field of a `Dependency`. -/
def Dependency.name : Dependency → S
  | .mk n _ _ => n

/-- Path field of a `Dependency`. -/
def Dependency.path : Dependency → Option S
  | .mk _ p _ => p

/-- Children field of a `Dependency`. -/
def Dependency.children : Dependency → List Dependency
  | .mk _ _ cs => cs

/-- The `DependsError` variants of src/src/main.rs lines 29..36, plus
`otherErr` for every other `anyhow` error carried up (UTF-8 decode failure,
`extract_deps` errors); the `downcast_ref` in `find_deps` distinguishes
exactly `skippedSystem` from the rest. -/
inductive DErr where
  | skippedSystem
  | notFound
  | otherErr (msg : S)
deriving DecidableEq

/-- Outcome of one `find_deps` call: a tree, a propagated error, a Rust
panic, or fuel exhaustion (a modelling artifact proved unreachable for
sufficient fuel). -/
inductive FRes where
  | ok (d : Dependency)
  | err (e : DErr)
  | panicked (msg : S)
  | outOfFuel

/-- Observable resolver events: one `probe` per `find_location` call and one
`spawn` per invocation of the analysis utility. -/
inductive Ev where
  | probe (target dir : S)
  | spawn (loc : S)
deriving DecidableEq

/-- Outcome of the child-processing loop of `find_deps`. -/
inductive GRes where
  | done (cs : List Dependency)
  | panicked (msg : S)
  | outOfFuel

/-- The lowercase pattern of the system check (src line 154). -/
def sys32Pat : S := "windows\\system32".data

/-- Message of the `expect` panic on a spawn failure (src line 168). -/
def runFailMsg : S := "failed to run dumpbin".data

/-- Message standing for the UTF-8 decode error (src line 169). -/
def utf8Msg : S := "invalid utf-8".data

/-- Message of the `unwrap` panic on a missing file name (src line 175). -/
def unwrapMsg : S := "called unwrap on None".data

/-- Message of the `expect` panic on a missing parent dir (src lines 65, 180). -/
def parentDirMsg : S := "Failed to get parent dir".data

/-- The `for dep in deps` loop of `find_deps` (src lines 186..206),
parameterized by the recursive call `fc`.  A dependency already in `visited`
is skipped entirely; otherwise it is inserted and resolved recursively: a tree
becomes a child, `SkippedSystem` is dropped silently, any other error becomes
a visible leaf with no path, and a panic aborts everything. -/
def find_deps_go (fc : S → List S → FRes × List S × List Ev) :
    List S → List S → GRes × List S × List Ev
  | [], v => (.done [], v, [])
  | dep :: rest, v =>
    if v.contains dep then find_deps_go fc rest v
    else
      match fc dep (dep :: v) with
      | (.ok node, v2, evs) =>
        let r := find_deps_go fc rest v2
        let gr := match r.1 with
          | .done cs => GRes.done (node :: cs)
          | g => g
        (gr, r.2.1, evs ++ r.2.2)
      | (.err .skippedSystem, v2, evs) =>
        let r := find_deps_go fc rest v2
        (r.1, r.2.1, evs ++ r.2.2)
      | (.err _, v2, evs) =>
        let r := find_deps_go fc rest v2
        let gr := match r.1 with
          | .done cs => GRes.done (Dependency.mk dep none [] :: cs)
          | g => g
        (gr, r.2.1, evs ++ r.2.2)
      | (.panicked m, v2, evs) => (.panicked m, v2, evs)
      | (.outOfFuel, v2, evs) => (.outOfFuel, v2, evs)

/-- `find_deps` from src/src/main.rs lines 143..209.  Stages in source order:
resolve the target's location (`NotFound` error on failure); unless
`show_system`, skip when the lowercased location contains the system32
pattern; spawn the utility (panic on spawn failure, error on undecodable
stdout); `extract_deps`; take the node name from the resolved location
(`unwrap` panic); compute `target_loc_dir` as `target.parent()` — note the
source takes the parent of the *argument* `target`, not of the resolved
`target_loc` (`expect` panic on `None`); then process the children.  Returns
the outcome, the final visited set and the event trace. -/
def find_deps (w : World) (ss : Bool) : Nat → S → S → List S → FRes × List S × List Ev
  | 0, _, _, v => (.outOfFuel, v, [])
  | fuel + 1, target, target_dir, v =>
    match find_location w target target_dir with
    | none => (.err .notFound, v, [.probe target target_dir])
    | some target_loc =>
      if !ss && containsSub sys32Pat (toLowerS target_loc) then
        (.err .skippedSystem, v, [.probe target target_dir])
      else
        match w.output target_loc with
        | .spawnFail => (.panicked runFailMsg, v, [.probe target target_dir, .spawn target_loc])
        | .badUtf8 =>
          (.err (.otherErr utf8Msg), v, [.probe target target_dir, .spawn target_loc])
        | .okOut text =>
          match extract_deps text with
          | .err m => (.err (.otherErr m), v, [.probe target target_dir, .spawn target_loc])
          | .panicked m => (.panicked m, v, [.probe target target_dir, .spawn target_loc])
          | .ok deps =>
            match fileName target_loc with
            | none => (.panicked unwrapMsg, v, [.probe target target_dir, .spawn target_loc])
            | some nm =>
              match parent target with
              | none =>
                (.panicked parentDirMsg, v, [.probe target target_dir, .spawn target_loc])
              | some target_loc_dir =>
                let r := find_deps_go
                  (fun d vv => find_deps w ss fuel d target_loc_dir vv) deps v
                let res := match r.1 with
                  | .done cs => FRes.ok (Dependency.mk nm (some target_loc) cs)
                  | .panicked m => FRes.panicked m
                  | .outOfFuel => FRes.outOfFuel
                (res, r.2.1, .probe target target_dir :: .spawn target_loc :: r.2.2)

/-- The parsed command line of src/src/main.rs lines 5..20. -/
structure Args where
  dumpbin : Option S
  show_system : Bool
  show_dupes : Bool
  target : S

/-- Observable outcome of the whole process: an exit code (0 for `Ok`, 1 for
an `Err` return from `main`), a panic (itself a non-zero process exit), or
the fuel artifact. -/
inductive MainRes where
  | exit (code : Nat)
  | panicked (msg : S)
  | outOfFuel
deriving DecidableEq

/-- `main` from src/src/main.rs lines 53..134: locate dumpbin (`Err` exit on
failure), take the target's parent dir (`expect` panic) and file name
(`unwrap` panic), seed `visited` with the file name, run `find_deps` — whose
`Result` is *not* unwrapped: line 74 has no `?`, and the `for dep in &deps`
loop on line 82 iterates an `Err` zero times — print the table and return
`Ok(())`.  Only a panic inside `find_deps` can make a located-dumpbin run
exit non-zero. -/
def main_run (w : World) (args : Args) (fuel : Nat) : MainRes :=
  let dumpbinRes := match args.dumpbin with
    | some p => some p
    | none => w.dumpbinFound
  match dumpbinRes with
  | none => .exit 1
  | some _ =>
    match parent args.target with
    | none => .panicked parentDirMsg
    | some target_dir =>
      match fileName args.target with
      | none => .panicked unwrapMsg
      | some f =>
        match (find_deps w args.show_system fuel args.target target_dir [f]).1 with
        | .panicked m => .panicked m
        | .outOfFuel => .outOfFuel
        | _ => .exit 0

/-- Names of the `find_location` attempts in an event trace, in order. -/
def probeNames : List Ev → List S
  | [] => []
  | .probe n _ :: r => n :: probeNames r
  | .spawn _ :: r => probeNames r

/-- Structural invariant of one `find_deps` call: the visited set only grows,
by fresh pairwise-distinct names, and the names probed are at most the call's
own target followed by each freshly inserted name once, in insertion order. -/
def FindStructP (r : FRes × List S × List Ev) (target : S) (v : List S) : Prop :=
  ∃ new, r.2.1 = new ++ v ∧ (∀ x ∈ new, x ∉ v) ∧ new.Nodup ∧
    List.Sublist (probeNames r.2.2) (target :: new.reverse)

/-- The same invariant for the child-processing loop (no own probe). -/
def GoStructP (r : GRes × List S × List Ev) (v : List S) : Prop :=
  ∃ new, r.2.1 = new ++ v ∧ (∀ x ∈ new, x ∉ v) ∧ new.Nodup ∧
    List.Sublist (probeNames r.2.2) new.reverse

/-- All dependency names any report of this world can produce lie in `U`. -/
def ReportNamesIn (w : World) (U : List S) : Prop :=
  ∀ loc text deps, w.output loc = .okOut text → extract_deps text = .ok deps →
    ∀ d ∈ deps, d ∈ U

/-- Number of names of `U` not yet visited: the termination measure. -/
def fuelNeed (U v : List S) : Nat := (U.filter (fun x => !v.contains x)).length

/-- One entry per line, each line newline-terminated. -/
def entryLines (es : List S) : S := (es.map (fun e => e ++ ['\n'])).flatten

/-- The span a canonical two-block report puts between the primary marker and
`Summary`: first block's entries, a blank line, the delay-load marker line,
and the second block's entries. -/
def bothBlocksMid (e1 e2 : List S) : S :=
  '\n' :: (entryLines e1 ++ '\n' :: (delayMarker ++ '\n' :: entryLines e2))

/-- A canonical report carrying both blocks, terminated by `Summary` and
arbitrary trailing text. -/
def bothBlocksReport (e1 e2 : List S) (tl : S) : S :=
  startMarker ++ bothBlocksMid e1 e2 ++ summaryMarker ++ tl

/-- Modelled from the spec: the block of a marker per section 4.1's words —
the lines after the marker line up to the first blank line. -/
def specBlock (m : S) (ls : List S) : List S :=
  ((ls.dropWhile (fun l => !(l == m))).drop 1).takeWhile (fun l => !l.isEmpty)

/-- Modelled from the spec: the parse the spec describes — trimmed lines, the
primary block's entries followed by the delay-load block's entries, each block
ending at the first blank line. -/
def specBlocksParse (t : S) : List S :=
  let ls := (splitLines t).map trim
  specBlock startMarker ls ++ specBlock delayMarker ls

/-- A report with neither marker. -/
def noMarkerText : S := "hello world".data

/-- A report with the primary marker but no `Summary` occurrence. -/
def noSummaryText : S := "Image has the following dependencies:\n    a.dll\n".data

/-- A report with only the primary marker (and the `Summary` terminator). -/
def primaryOnlyReport : S :=
  "Image has the following dependencies:\n    KERNEL32.dll\n    USER32.dll\n\n  Summary\n".data

/-- A report where non-blank text sits between the first block's terminating
blank line and the delay-load marker: the spec's blank-line block rule and the
code's span-to-Summary rule disagree on it. -/
def cex7Text : S :=
  "Image has the following dependencies:\n    A.dll\n\n    junk\n\nImage has the following delay load dependencies:\n    B.dll\n\nSummary\n".data

/-- A report declaring no dependencies at all (still parseable). -/
def emptyReport : S := "Image has the following dependencies:\nSummary".data

/-- Bare file name of the root target of the example worlds. -/
def nApp : S := "app.exe".data

/-- Resolved path of the root target of the example worlds. -/
def pApp : S := "d:\\app\\app.exe".data

/-- Directory of the root target of the example worlds. -/
def dApp : S := "d:\\app".data

/-- A dumpbin path for example worlds. -/
def pDump : S := "c:\\vs\\dumpbin.exe".data

/-- The system-stub module name of claim C2. -/
def nApims : S := "api-ms-win-core-util-l1-1-0.dll".data

/-- Where `w2` keeps the system-stub-named module: in the app directory. -/
def pApims : S := "d:\\app\\api-ms-win-core-util-l1-1-0.dll".data

/-- Report of the C2 world's root: it names the api-ms stub. -/
def r2root : S :=
  "Image has the following dependencies:\n    api-ms-win-core-util-l1-1-0.dll\nSummary".data

/-- World of the C2 counterexample: the root's report names the api-ms stub,
which exists in the app directory. -/
def w2 : World where
  fs := [pApp, pApims]
  pathDirs := []
  output := fun loc => if loc = pApp then .okOut r2root else .okOut emptyReport
  dumpbinFound := none

/-- Bare name of the intermediate module of the C3 world. -/
def nMy : S := "mylib.dll".data

/-- Resolved path of the intermediate module of the C3 world. -/
def pMy : S := "d:\\app\\mylib.dll".data

/-- Bare name of the grandchild module of the C3 world. -/
def nSub : S := "sub.dll".data

/-- World of the C3 failing input: root depends on `mylib.dll` (resolved in
the app directory), whose own report names `sub.dll`.  Its root report: -/
def r3root : S := "Image has the following dependencies:\n    mylib.dll\nSummary".data

/-- Report of `mylib.dll` in the C3 world. -/
def r3my : S := "Image has the following dependencies:\n    sub.dll\nSummary".data

/-- The C3 world record. -/
def w3 : World where
  fs := [pApp, pMy]
  pathDirs := []
  output := fun loc =>
    if loc = pApp then .okOut r3root
    else if loc = pMy then .okOut r3my
    else .okOut emptyReport
  dumpbinFound := none

/-- World of the C4 counterexample: dumpbin is found but the filesystem is
empty, so the root target resolves nowhere. -/
def w4 : World where
  fs := []
  pathDirs := []
  output := fun _ => .okOut emptyReport
  dumpbinFound := some pDump

/-- Arguments of the C4 counterexample run. -/
def args4 : Args where
  dumpbin := none
  show_system := false
  show_dupes := false
  target := pApp

/-- Arguments with an explicit dumpbin path, for the C4 amended witness. -/
def args4b : Args where
  dumpbin := some pDump
  show_system := false
  show_dupes := false
  target := pApp

/-- A world in which dumpbin cannot be located anywhere. -/
def wNoDump : World where
  fs := []
  pathDirs := []
  output := fun _ => .okOut emptyReport
  dumpbinFound := none

/-- Bare name of the module with the undecodable report in the C5 world. -/
def nBad : S := "bad.dll".data

/-- Resolved path of that module. -/
def pBad : S := "d:\\app\\bad.dll".data

/-- World of the C5 counterexample: the root's single dependency resolves but
its report fails UTF-8 decoding.  Its root report: -/
def r5root : S := "Image has the following dependencies:\n    bad.dll\nSummary".data

/-- The C5 world record. -/
def w5 : World where
  fs := [pApp, pBad]
  pathDirs := []
  output := fun loc =>
    if loc = pApp then .okOut r5root
    else if loc = pBad then .badUtf8
    else .okOut emptyReport
  dumpbinFound := none

/-- Bare name of the root of the cyclic C1 witness world. -/
def nA : S := "a.dll".data

/-- Resolved path of `a.dll`. -/
def pA : S := "d:\\app\\a.dll".data

/-- Bare name of the other node of the cycle. -/
def nB : S := "b.dll".data

/-- Resolved path of `b.dll`. -/
def pB : S := "d:\\app\\b.dll".data

/-- World of the C1 witness: `a.dll` depends on `b.dll`, whose report names
both `a.dll` (a cycle) and `b.dll` (a self-dependency).  Root report: -/
def rCycA : S := "Image has the following dependencies:\n    b.dll\nSummary".data

/-- Report of `b.dll` in the cyclic world: a cycle plus a self-dependency. -/
def rCycB : S :=
  "Image has the following dependencies:\n    a.dll\n    b.dll\nSummary".data

/-- The cyclic world record. -/
def wCyc : World where
  fs := [pA, pB]
  pathDirs := []
  output := fun loc =>
    if loc = pA then .okOut rCycA
    else if loc = pB then .okOut rCycB
    else .okOut emptyReport
  dumpbinFound := none

/-- Bare name of the module that exists both in the preferred directory and
on the PATH in the C8 witness world. -/
def nX : S := "x.dll".data

/-- A PATH directory of the C8 witness world. -/
def dSys : S := "c:\\sys".data

/-- World of the C8 witness: `x.dll` exists in `d:\app` and in `c:\sys`,
and `c:\sys` is on the standard search path. -/
def w8 : World where
  fs := ["d:\\app\\x.dll".data, "c:\\sys\\x.dll".data]
  pathDirs := [dSys]
  output := fun _ => .okOut emptyReport
  dumpbinFound := none

/-- Bare name of the module resolving into an SDK tree in the C9 world. -/
def nFoo : S := "foo.dll".data

/-- The platform-SDK directory of the C9 world. -/
def dSdk : S := "c:\\program files (x86)\\windows kits\\10\\bin\\x64".data

/-- Resolved path of `foo.dll` inside the SDK tree. -/
def pFoo : S := "c:\\program files (x86)\\windows kits\\10\\bin\\x64\\foo.dll".data

/-- World of the C9 counterexample: the root's dependency resolves only via
the PATH, into a platform SDK directory.  Its root report: -/
def r9root : S := "Image has the following dependencies:\n    foo.dll\nSummary".data

/-- The C9 world record. -/
def w9 : World where
  fs := [pApp, pFoo]
  pathDirs := [dSdk]
  output := fun loc => if loc = pApp then .okOut r9root else .okOut emptyReport
  dumpbinFound := none

/-- Bare name of a genuine system module for the C9 witness. -/
def nK32 : S := "kernel32.dll".data

/-- Its resolved path under the system binary directory. -/
def pK32 : S := "c:\\windows\\system32\\kernel32.dll".data

/-- World of the C9 witness: `kernel32.dll` resolves via the PATH into
`c:\windows\system32`. -/
def wSys : World where
  fs := [pK32]
  pathDirs := ["c:\\windows\\system32".data]
  output := fun _ => .spawnFail
  dumpbinFound := none

/-- First entry of the spec's P1 example. -/
def eK32 : S := "KERNEL32.dll".data

/-- Second entry of the spec's P1 example. -/
def eU32 : S := "USER32.dll".data

/-- Delay-load entry of the spec's P1 example. -/
def eCctl : S := "COMCTL32.dll".data

/-- Trailing text after `Summary` for the C7 witness report. -/
def tail7 : S := "\n        1000 .data\n".data

/-! Helper lemmas about the string utilities. -/

theorem findSub_of_isPrefixOf {pat x : S} (h : pat.isPrefixOf x = true) :
    findSub pat x = some 0 := by
  cases x <;> simp [findSub, h]

theorem isPrefixOf_append_self (a b : S) : a.isPrefixOf (a ++ b) = true := by
  induction a with
  | nil => simp [List.isPrefixOf]
  | cons c t ih => simp [List.isPrefixOf, ih]

theorem findSub_eq_none_of_not_contains {pat x : S} (h : containsSub pat x = false) :
    findSub pat x = none := by
  unfold containsSub at h
  cases hf : findSub pat x with
  | none => rfl
  | some i => rw [hf] at h; simp at h

theorem splitNl_ne_nil (x : S) : splitNl x ≠ [] := by
  cases x with
  | nil => simp [splitNl]
  | cons c rest =>
    cases hr : splitNl rest with
    | nil => simp [splitNl, hr]
    | cons h t =>
      simp only [splitNl, hr]
      split <;> simp

theorem splitNl_noNl {x : S} (h : ∀ c ∈ x, c ≠ '\n') : splitNl x = [x] := by
  induction x with
  | nil => rfl
  | cons c rest ih =>
    have hc : c ≠ '\n' := h c (by simp)
    have hr : splitNl rest = [rest] := ih (fun d hd => h d (by simp [hd]))
    simp [splitNl, hr, hc]

theorem splitNl_append_nl {a : S} (b : S) (h : ∀ c ∈ a, c ≠ '\n') :
    splitNl (a ++ '\n' :: b) = a :: splitNl b := by
  induction a with
  | nil =>
    simp only [List.nil_append, splitNl]
    cases hr : splitNl b with
    | nil => exact absurd hr (splitNl_ne_nil b)
    | cons h t => simp
  | cons c a' ih =>
    have hc : c ≠ '\n' := h c (by simp)
    have hr : splitNl (a' ++ '\n' :: b) = a' :: splitNl b :=
      ih (fun d hd => h d (by simp [hd]))
    simp [splitNl, hr, hc]

theorem splitNl_entryLines {es : List S} (b : S)
    (h : ∀ e ∈ es, ∀ c ∈ e, c ≠ '\n') :
    splitNl (entryLines es ++ b) = es ++ splitNl b := by
  induction es with
  | nil => simp [entryLines]
  | cons e es' ih =>
    have he : ∀ c ∈ e, c ≠ '\n' := h e (by simp)
    have hr : splitNl (entryLines es' ++ b) = es' ++ splitNl b :=
      ih (fun d hd => h d (by simp [hd]))
    have : entryLines (e :: es') ++ b = e ++ '\n' :: (entryLines es' ++ b) := by
      simp [entryLines]
    rw [this, splitNl_append_nl _ he, hr]
    simp

theorem splitNl_snoc_nl (x : S) : splitNl (x ++ ['\n']) = splitNl x ++ [[]] := by
  induction x with
  | nil => rfl
  | cons c rest ih =>
    cases hr : splitNl rest with
    | nil => exact absurd hr (splitNl_ne_nil rest)
    | cons h t =>
      have hr2 : splitNl (rest ++ ['\n']) = h :: (t ++ [[]]) := by
        rw [ih, hr]; simp
      simp only [List.cons_append, splitNl, hr, hr2]
      by_cases hc : c = '\n' <;> simp [hc, hr2]

theorem splitNl_snoc {c : Char} (hc : c ≠ '\n') (x : S) :
    ∃ ps lst, splitNl x = ps ++ [lst] ∧ splitNl (x ++ [c]) = ps ++ [lst ++ [c]] := by
  induction x with
  | nil => exact ⟨[], [], rfl, by simp [splitNl, hc]⟩
  | cons d rest ih =>
    obtain ⟨ps, lst, h1, h2⟩ := ih
    by_cases hd : d = '\n'
    · subst hd
      refine ⟨[] :: ps, lst, ?_, ?_⟩
      · simp only [splitNl]
        rw [h1]
        cases ps <;> simp
      · simp only [List.cons_append, splitNl, List.append_eq]
        rw [h2]
        cases ps <;> simp
    · cases ps with
      | nil =>
        simp only [List.nil_append] at h1 h2
        refine ⟨[], d :: lst, ?_, ?_⟩
        · simp [splitNl, h1, hd]
        · simp [splitNl, h2, hd]
      | cons p ps' =>
        refine ⟨(d :: p) :: ps', lst, ?_, ?_⟩
        · simp [splitNl, h1, hd]
        · simp [splitNl, h2, hd]

/-! Helper lemmas about trimming. -/

theorem trimLeft_cons_ws {c : Char} (hc : isWs c = true) (x : S) :
    trimLeft (c :: x) = trimLeft x := by
  simp [trimLeft, List.dropWhile_cons, hc]

theorem trimRight_append_ws {suf : S} (hsuf : ∀ c ∈ suf, isWs c = true) (x : S) :
    trimRight (x ++ suf) = trimRight x := by
  unfold trimRight
  rw [List.reverse_append, List.dropWhile_append]
  have : suf.reverse.dropWhile isWs = [] := by
    rw [List.dropWhile_eq_nil_iff]
    intro c hc
    simp [hsuf c (List.mem_reverse.mp hc)]
  simp [this]

theorem trimLeft_append_ws {pre : S} (hpre : ∀ c ∈ pre, isWs c = true) (x : S) :
    trimLeft (pre ++ x) = trimLeft x := by
  unfold trimLeft
  rw [List.dropWhile_append]
  have : pre.dropWhile isWs = [] := by
    rw [List.dropWhile_eq_nil_iff]
    intro c hc
    simp [hpre c hc]
  simp [this]

theorem trim_append_ws {suf : S} (hsuf : ∀ c ∈ suf, isWs c = true) (x : S) :
    trim (x ++ suf) = trim x := by
  unfold trim trimLeft
  rw [List.dropWhile_append]
  by_cases h : (x.dropWhile isWs).isEmpty
  · have hx : x.dropWhile isWs = [] := by
      cases hd : x.dropWhile isWs with
      | nil => rfl
      | cons a t => rw [hd] at h; simp at h
    have hs : suf.dropWhile isWs = [] := by
      rw [List.dropWhile_eq_nil_iff]
      intro c hc
      simp [hsuf c hc]
    simp [h, hx, hs]
  · simp only [h, if_false]
    exact trimRight_append_ws hsuf _

theorem trim_cons_ws {c : Char} (hc : isWs c = true) (x : S) :
    trim (c :: x) = trim x := by
  unfold trim
  rw [trimLeft_cons_ws hc]

theorem trim_of_forall_not_ws {x : S} (h : ∀ c ∈ x, isWs c = false) : trim x = x := by
  have h1 : trimLeft x = x := by
    unfold trimLeft
    rw [List.dropWhile_eq_self_iff]
    cases x with
    | nil => simp
    | cons a t => simp [h a (by simp)]
  have h2 : trimRight x = x := by
    unfold trimRight
    have : x.reverse.dropWhile isWs = x.reverse := by
      rw [List.dropWhile_eq_self_iff]
      cases hx : x.reverse with
      | nil => simp
      | cons a t =>
        have : a ∈ x := by
          rw [← List.mem_reverse, hx]; simp
        simp [h a this]
    simp [this]
  unfold trim
  rw [h1, h2]

theorem trim_stripCR (x : S) : trim (stripCR x) = trim x := by
  unfold stripCR
  split
  · next r hr =>
    have hxe : x = r.reverse ++ ['\r'] := by
      have := congrArg List.reverse hr
      simpa using this
    rw [hxe, trim_append_ws (by intro c hc; simp at hc; subst hc; decide)]
  · rfl

/-! Helper lemmas about the line pipeline. -/

theorem trim_nil : trim [] = [] := rfl

theorem lineKeep_nil : lineKeep [] = false := rfl

theorem map_trim_stripCR (l : List S) : (l.map stripCR).map trim = l.map trim := by
  induction l with
  | nil => rfl
  | cons a t ih => simp [trim_stripCR, ih]

theorem pipeline_eq_pipeRaw (x : S) : pipeline x = pipeRaw x := by
  unfold pipeline pipeRaw splitLines
  by_cases h : (splitNl x).getLast? = some []
  · obtain ⟨l', hl⟩ := List.getLast?_eq_some_iff.mp h
    rw [hl]
    simp only [if_pos (hl ▸ h), List.dropLast_concat, map_trim_stripCR,
      List.map_append, List.filter_append]
    simp [trim_nil, lineKeep_nil]
  · simp only [if_neg h]
    rw [map_trim_stripCR]

theorem splitNl_cons_nl (x : S) : splitNl ('\n' :: x) = [] :: splitNl x := by
  cases hr : splitNl x with
  | nil => exact absurd hr (splitNl_ne_nil x)
  | cons h t => simp [splitNl, hr]

theorem pipeRaw_cons_ws {c : Char} (hc : isWs c = true) (x : S) :
    pipeRaw (c :: x) = pipeRaw x := by
  by_cases hnl : c = '\n'
  · subst hnl
    unfold pipeRaw
    rw [splitNl_cons_nl]
    simp [trim_nil, lineKeep_nil]
  · cases hr : splitNl x with
    | nil => exact absurd hr (splitNl_ne_nil x)
    | cons h t =>
      unfold pipeRaw
      simp only [splitNl, hr, if_neg hnl]
      simp [trim_cons_ws hc]

theorem pipeRaw_snoc_ws {c : Char} (hc : isWs c = true) (x : S) :
    pipeRaw (x ++ [c]) = pipeRaw x := by
  by_cases hnl : c = '\n'
  · subst hnl
    unfold pipeRaw
    rw [splitNl_snoc_nl]
    simp [trim_nil, lineKeep_nil]
  · obtain ⟨ps, lst, h1, h2⟩ := splitNl_snoc hnl x
    unfold pipeRaw
    rw [h1, h2]
    simp only [List.map_append, List.filter_append, List.map_cons, List.map_nil]
    rw [trim_append_ws (by intro d hd; simp at hd; subst hd; exact hc)]

theorem pipeRaw_pre_ws {pre : S} (h : ∀ c ∈ pre, isWs c = true) (x : S) :
    pipeRaw (pre ++ x) = pipeRaw x := by
  induction pre with
  | nil => simp
  | cons c pre' ih =>
    have : (c :: pre') ++ x = c :: (pre' ++ x) := rfl
    rw [this, pipeRaw_cons_ws (h c (by simp)), ih (fun d hd => h d (by simp [hd]))]

theorem pipeRaw_suf_ws {suf : S} (h : ∀ c ∈ suf, isWs c = true) (x : S) :
    pipeRaw (x ++ suf) = pipeRaw x := by
  induction suf generalizing x with
  | nil => simp
  | cons c suf' ih =>
    have hx : x ++ c :: suf' = (x ++ [c]) ++ suf' := by simp
    rw [hx, ih (fun d hd => h d (by simp [hd])), pipeRaw_snoc_ws (h c (by simp))]

theorem pipeRaw_trimLeft (x : S) : pipeRaw (trimLeft x) = pipeRaw x := by
  have hx : x.takeWhile isWs ++ trimLeft x = x := List.takeWhile_append_dropWhile isWs x
  conv_rhs => rw [← hx]
  rw [pipeRaw_pre_ws (fun c hc => List.mem_takeWhile_imp hc)]

theorem pipeRaw_trimRight (x : S) : pipeRaw (trimRight x) = pipeRaw x := by
  have hx : trimRight x ++ (x.reverse.takeWhile isWs).reverse = x := by
    unfold trimRight
    rw [← List.reverse_append, List.takeWhile_append_dropWhile, List.reverse_reverse]
  conv_rhs => rw [← hx]
  rw [pipeRaw_suf_ws
    (fun c hc => List.mem_takeWhile_imp (List.mem_reverse.mp hc))]

theorem pipeRaw_trim (x : S) : pipeRaw (trim x) = pipeRaw x := by
  unfold trim
  rw [pipeRaw_trimRight, pipeRaw_trimLeft]

theorem pipeline_trim_eq (x : S) : pipeline (trim x) = pipeRaw x := by
  rw [pipeline_eq_pipeRaw, pipeRaw_trim]

/-! Helper lemmas about canonical report entries. -/

theorem entry_lineKeep {e : S} (hne : e ≠ []) (h : ∀ c ∈ e, isWs c = false) :
    lineKeep e = true := by
  have hd : (e == delayMarker) = false := by
    by_cases he : e = delayMarker
    · subst he
      have := h ' ' (by decide)
      exact absurd this (by decide)
    · simp [he]
  simp [lineKeep, hne, hd]

theorem pipePieces_entries {es : List S}
    (h : ∀ e ∈ es, e ≠ [] ∧ ∀ c ∈ e, isWs c = false) :
    (es.map trim).filter lineKeep = es := by
  induction es with
  | nil => rfl
  | cons e es' ih =>
    have he := h e (by simp)
    have htrim : trim e = e := trim_of_forall_not_ws he.2
    have hkeep : lineKeep e = true := entry_lineKeep he.1 he.2
    simp only [List.map_cons, List.filter_cons, htrim, hkeep, if_pos]
    rw [ih (fun d hd => h d (by simp [hd]))]

theorem pipeRaw_bothBlocksMid (e1 e2 : List S)
    (h : ∀ e ∈ e1 ++ e2, e ≠ [] ∧ ∀ c ∈ e, isWs c = false) :
    pipeRaw (bothBlocksMid e1 e2) = e1 ++ e2 := by
  have h1 : ∀ e ∈ e1, e ≠ [] ∧ ∀ c ∈ e, isWs c = false :=
    fun e he => h e (by simp [he])
  have h2 : ∀ e ∈ e2, e ≠ [] ∧ ∀ c ∈ e, isWs c = false :=
    fun e he => h e (by simp [he])
  have hnl1 : ∀ e ∈ e1, ∀ c ∈ e, c ≠ '\n' := by
    intro e he c hc hEq
    subst hEq
    exact absurd ((h1 e he).2 _ hc) (by decide)
  have hnl2 : ∀ e ∈ e2, ∀ c ∈ e, c ≠ '\n' := by
    intro e he c hc hEq
    subst hEq
    exact absurd ((h2 e he).2 _ hc) (by decide)
  have hsplit : splitNl (bothBlocksMid e1 e2) =
      [] :: (e1 ++ ([] :: (delayMarker :: (e2 ++ [[]])))) := by
    unfold bothBlocksMid
    rw [splitNl_cons_nl, splitNl_entryLines _ hnl1, splitNl_cons_nl,
      splitNl_append_nl _ (by decide)]
    have : entryLines e2 = entryLines e2 ++ [] := by simp
    rw [this, splitNl_entryLines _ hnl2]
    rfl
  unfold pipeRaw
  rw [hsplit]
  simp only [List.map_cons, List.map_append, List.filter_cons, List.filter_append,
    trim_nil, lineKeep_nil, Bool.false_eq_true, if_false]
  have hdt : trim delayMarker = delayMarker := by decide
  have hdk : lineKeep delayMarker = false := by decide
  simp only [hdt, hdk, Bool.false_eq_true, if_false, List.map_nil, List.filter_nil]
  rw [pipePieces_entries h1, pipePieces_entries h2]
  simp

/-- C6 counterexample: on a report containing neither block marker,
`extract_deps` does not return an empty list — it returns the error
`no dependencies`, so an absent primary marker is an error condition. -/
theorem c6_counterexample :
    containsSub startMarker noMarkerText = false ∧
    containsSub delayMarker noMarkerText = false ∧
    extract_deps noMarkerText = .err noDepsMsg := by
  refine ⟨by decide, by decide, by decide⟩

/-- C6 amended: the absence of the primary marker (in particular of both
markers) makes `extract_deps` return the error `no dependencies` instead of
an empty list; only an absent delay-load marker is not an error — a report
with just the primary marker (and the `Summary` terminator) yields exactly
the primary block's entries. -/
theorem c6_amended :
    (∀ t, containsSub startMarker t = false → extract_deps t = .err noDepsMsg) ∧
    extract_deps primaryOnlyReport = .ok [eK32, eU32] := by
  constructor
  · intro t ht
    unfold extract_deps
    rw [findSub_eq_none_of_not_contains ht]
  · decide

/-- C6 witness: the amended theorem applied to the concrete markerless text
`xyz`. -/
theorem c6_witness :
    containsSub startMarker "xyz".data = false ∧
    extract_deps "xyz".data = .err noDepsMsg :=
  ⟨by decide, c6_amended.1 "xyz".data (by decide)⟩

/-- C10: for every report text containing the primary marker but no
occurrence of `Summary`, `extract_deps` panics (the `expect` on src line 224)
instead of returning a value or an error. -/
theorem c10_panics_without_summary (t : S)
    (h1 : containsSub startMarker t = true)
    (h2 : containsSub summaryMarker t = false) :
    extract_deps t = .panicked noSummaryMsg := by
  unfold containsSub at h1
  obtain ⟨i, hi⟩ := Option.isSome_iff_exists.mp h1
  unfold extract_deps
  rw [hi, findSub_eq_none_of_not_contains h2]

/-- C10 witness: the panic theorem applied to a concrete report with the
primary marker and no `Summary`. -/
theorem c10_witness :
    containsSub startMarker noSummaryText = true ∧
    containsSub summaryMarker noSummaryText = false ∧
    extract_deps noSummaryText = .panicked noSummaryMsg :=
  ⟨by decide, by decide, c10_panics_without_summary noSummaryText (by decide) (by decide)⟩

/-- C7 counterexample: a report containing both markers on which the claim's
blank-line block rule and the code disagree: the spec-following parse of
`cex7Text` is `[A.dll, B.dll]`, but `extract_deps` keeps the non-blank line
`junk` sitting after the first block's terminating blank line, returning
`[A.dll, junk, B.dll]`. -/
theorem c7_counterexample :
    specBlocksParse cex7Text = ["A.dll".data, "B.dll".data] ∧
    extract_deps cex7Text = .ok ["A.dll".data, "junk".data, "B.dll".data] ∧
    ["A.dll".data, "junk".data, "B.dll".data] ≠ ["A.dll".data, "B.dll".data] := by
  refine ⟨by decide, by decide, by decide⟩

/-- C7 amended: for a canonical two-block report — entries are non-blank
whitespace-free lines, the delay-load marker line separates the blocks, and
`Summary` first occurs right after the span — `extract_deps` returns the
primary block's entries followed by the delay-load block's entries, in report
order with duplicates preserved.  The blocks are delimited by the `Summary`
terminator, not by the first blank line. -/
theorem c7_amended (e1 e2 : List S) (tl : S)
    (h : ∀ e ∈ e1 ++ e2, e ≠ [] ∧ ∀ c ∈ e, isWs c = false)
    (hK : findSub summaryMarker (bothBlocksReport e1 e2 tl)
      = some (startMarker.length + (bothBlocksMid e1 e2).length)) :
    extract_deps (bothBlocksReport e1 e2 tl) = .ok (e1 ++ e2) := by
  have hstart : findSub startMarker (bothBlocksReport e1 e2 tl) = some 0 := by
    apply findSub_of_isPrefixOf
    unfold bothBlocksReport
    simp only [List.append_assoc]
    exact isPrefixOf_append_self _ _
  simp only [extract_deps, hstart, hK]
  rw [if_neg (by omega)]
  have hslice : ((bothBlocksReport e1 e2 tl).take
      (startMarker.length + (bothBlocksMid e1 e2).length)).drop (0 + startMarker.length)
      = bothBlocksMid e1 e2 := by
    unfold bothBlocksReport
    rw [show startMarker ++ bothBlocksMid e1 e2 ++ summaryMarker ++ tl
        = (startMarker ++ bothBlocksMid e1 e2) ++ (summaryMarker ++ tl) by simp]
    rw [show startMarker.length + (bothBlocksMid e1 e2).length
        = (startMarker ++ bothBlocksMid e1 e2).length by simp]
    rw [List.take_left, Nat.zero_add]
    exact List.drop_left _ _
  rw [hslice, pipeline_trim_eq, pipeRaw_bothBlocksMid e1 e2 h]

/-- C7 witness: the amended theorem applied to the spec's P1 example report
(`KERNEL32.dll`, `USER32.dll`; delay-load `COMCTL32.dll`). -/
theorem c7_witness :
    extract_deps (bothBlocksReport [eK32, eU32] [eCctl] tail7) =
      .ok [eK32, eU32, eCctl] :=
  c7_amended [eK32, eU32] [eCctl] tail7 (by decide) (by decide)

/-! Structural invariants of `find_deps`: the visited set only ever grows by
fresh names, and probes are the call's target plus each fresh name once. -/

theorem probeNames_append (a b : List Ev) :
    probeNames (a ++ b) = probeNames a ++ probeNames b := by
  induction a with
  | nil => rfl
  | cons e r ih => cases e <;> simp [probeNames, ih]

theorem struct_leaf {r1 : FRes} {v : List S} {evs : List Ev} (target : S)
    (hp : probeNames evs = [target]) :
    FindStructP (r1, v, evs) target v :=
  ⟨[], rfl, by simp, List.nodup_nil, by
    rw [hp]
    simp⟩

theorem struct_combine {dep : S} {v v2 v3 : List S} {p1 p2 : List S}
    (hdep : dep ∉ v)
    (nc : List S) (h1 : v2 = nc ++ dep :: v) (h2 : ∀ x ∈ nc, x ∉ dep :: v)
    (h3 : nc.Nodup) (h4 : List.Sublist p1 (dep :: nc.reverse))
    (nr : List S) (g1 : v3 = nr ++ v2) (g2 : ∀ x ∈ nr, x ∉ v2) (g3 : nr.Nodup)
    (g4 : List.Sublist p2 nr.reverse) :
    ∃ new, v3 = new ++ v ∧ (∀ x ∈ new, x ∉ v) ∧ new.Nodup ∧
      List.Sublist (p1 ++ p2) new.reverse := by
  refine ⟨nr ++ nc ++ [dep], ?_, ?_, ?_, ?_⟩
  · rw [g1, h1]
    simp
  · intro x hx
    simp only [List.mem_append, List.mem_singleton] at hx
    rcases hx with (hx | hx) | hx
    · intro hxv
      exact g2 x hx (by rw [h1]; simp [hxv])
    · intro hxv
      exact h2 x hx (by simp [hxv])
    · subst hx
      exact hdep
  · rw [List.nodup_append, List.nodup_append]
    refine ⟨⟨g3, h3, ?_⟩, by simp, ?_⟩
    · intro a ha hb
      exact g2 a ha (by rw [h1]; exact List.mem_append_left _ hb)
    · intro a ha
      simp only [List.mem_append] at ha
      simp only [List.mem_singleton]
      rcases ha with ha | ha
      · intro hEq
        subst hEq
        exact g2 a ha (by rw [h1]; simp)
      · intro hEq
        subst hEq
        exact h2 a ha (by simp)
  · have hrev : (nr ++ nc ++ [dep]).reverse = (dep :: nc.reverse) ++ nr.reverse := by
      simp
    rw [hrev]
    exact h4.append g4

theorem struct_abort {dep : S} {v v2 : List S} {p1 : List S}
    (hdep : dep ∉ v)
    (nc : List S) (h1 : v2 = nc ++ dep :: v) (h2 : ∀ x ∈ nc, x ∉ dep :: v)
    (h3 : nc.Nodup) (h4 : List.Sublist p1 (dep :: nc.reverse)) :
    ∃ new, v2 = new ++ v ∧ (∀ x ∈ new, x ∉ v) ∧ new.Nodup ∧
      List.Sublist p1 new.reverse := by
  refine ⟨nc ++ [dep], ?_, ?_, ?_, ?_⟩
  · rw [h1]; simp
  · intro x hx
    simp only [List.mem_append, List.mem_singleton] at hx
    rcases hx with hx | hx
    · intro hxv
      exact h2 x hx (by simp [hxv])
    · subst hx
      exact hdep
  · rw [List.nodup_append]
    refine ⟨h3, by simp, ?_⟩
    intro a ha
    simp only [List.mem_singleton]
    intro hEq
    subst hEq
    exact h2 a ha (by simp)
  · have hrev : (nc ++ [dep]).reverse = dep :: nc.reverse := by simp
    rw [hrev]
    exact h4

theorem go_struct (fc : S → List S → FRes × List S × List Ev)
    (hfc : ∀ d vv, FindStructP (fc d vv) d vv) :
    ∀ deps v, GoStructP (find_deps_go fc deps v) v := by
  intro deps
  induction deps with
  | nil =>
    intro v
    exact ⟨[], rfl, by simp, List.nodup_nil, by simp [find_deps_go, probeNames]⟩
  | cons dep rest ih =>
    intro v
    by_cases hvc : v.contains dep = true
    · have heq : find_deps_go fc (dep :: rest) v = find_deps_go fc rest v := by
        simp only [find_deps_go]
        rw [if_pos hvc]
      rw [heq]
      exact ih v
    · have hdep : dep ∉ v := by simpa using (Bool.not_eq_true _).mp hvc
      rcases hr : fc dep (dep :: v) with ⟨r1, v2, evs⟩
      have hstr := hfc dep (dep :: v)
      rw [hr] at hstr
      obtain ⟨nc, h1, h2, h3, h4⟩ := hstr
      simp only at h1 h4
      cases r1 with
      | ok node =>
        obtain ⟨nr, g1, g2, g3, g4⟩ := ih v2
        have heq : find_deps_go fc (dep :: rest) v =
            (match (find_deps_go fc rest v2).1 with
              | .done cs => GRes.done (node :: cs)
              | g => g,
             (find_deps_go fc rest v2).2.1,
             evs ++ (find_deps_go fc rest v2).2.2) := by
          simp only [find_deps_go]
          rw [if_neg hvc, hr]
        rw [heq]
        obtain ⟨new, n1, n2, n3, n4⟩ :=
          struct_combine hdep nc h1 h2 h3 h4 nr g1 g2 g3 g4
        exact ⟨new, n1, n2, n3, by rw [probeNames_append]; exact n4⟩
      | err e =>
        obtain ⟨nr, g1, g2, g3, g4⟩ := ih v2
        obtain ⟨new, n1, n2, n3, n4⟩ :=
          struct_combine hdep nc h1 h2 h3 h4 nr g1 g2 g3 g4
        cases e with
        | skippedSystem =>
          have heq : find_deps_go fc (dep :: rest) v =
              ((find_deps_go fc rest v2).1, (find_deps_go fc rest v2).2.1,
               evs ++ (find_deps_go fc rest v2).2.2) := by
            simp only [find_deps_go]
            rw [if_neg hvc, hr]
          rw [heq]
          exact ⟨new, n1, n2, n3, by rw [probeNames_append]; exact n4⟩
        | notFound =>
          have heq : find_deps_go fc (dep :: rest) v =
              (match (find_deps_go fc rest v2).1 with
                | .done cs => GRes.done (Dependency.mk dep none [] :: cs)
                | g => g,
               (find_deps_go fc rest v2).2.1,
               evs ++ (find_deps_go fc rest v2).2.2) := by
            simp only [find_deps_go]
            rw [if_neg hvc, hr]
          rw [heq]
          exact ⟨new, n1, n2, n3, by rw [probeNames_append]; exact n4⟩
        | otherErr m =>
          have heq : find_deps_go fc (dep :: rest) v =
              (match (find_deps_go fc rest v2).1 with
                | .done cs => GRes.done (Dependency.mk dep none [] :: cs)
                | g => g,
               (find_deps_go fc rest v2).2.1,
               evs ++ (find_deps_go fc rest v2).2.2) := by
            simp only [find_deps_go]
            rw [if_neg hvc, hr]
          rw [heq]
          exact ⟨new, n1, n2, n3, by rw [probeNames_append]; exact n4⟩
      | panicked m =>
        have heq : find_deps_go fc (dep :: rest) v = (.panicked m, v2, evs) := by
          simp only [find_deps_go]
          rw [if_neg hvc, hr]
        rw [heq]
        exact struct_abort hdep nc h1 h2 h3 h4
      | outOfFuel =>
        have heq : find_deps_go fc (dep :: rest) v = (.outOfFuel, v2, evs) := by
          simp only [find_deps_go]
          rw [if_neg hvc, hr]
        rw [heq]
        exact struct_abort hdep nc h1 h2 h3 h4

theorem find_struct (w : World) (ss : Bool) :
    ∀ fuel target dir v, FindStructP (find_deps w ss fuel target dir v) target v := by
  intro fuel
  induction fuel with
  | zero =>
    intro target dir v
    exact ⟨[], rfl, by simp, List.nodup_nil, by simp [find_deps, probeNames]⟩
  | succ fuel ih =>
    intro target dir v
    cases hloc : find_location w target dir with
    | none =>
      have heq : find_deps w ss (fuel + 1) target dir v =
          (.err .notFound, v, [.probe target dir]) := by
        simp only [find_deps]
        rw [hloc]
      rw [heq]
      exact struct_leaf target rfl
    | some loc =>
      by_cases hsys : (!ss && containsSub sys32Pat (toLowerS loc)) = true
      · have heq : find_deps w ss (fuel + 1) target dir v =
            (.err .skippedSystem, v, [.probe target dir]) := by
          simp only [find_deps, hloc]
          rw [if_pos hsys]
        rw [heq]
        exact struct_leaf target rfl
      · cases hout : w.output loc with
        | spawnFail =>
          have heq : find_deps w ss (fuel + 1) target dir v =
              (.panicked runFailMsg, v, [.probe target dir, .spawn loc]) := by
            simp only [find_deps, hloc]
            rw [if_neg hsys]
            simp only [hout]
          rw [heq]
          exact struct_leaf target rfl
        | badUtf8 =>
          have heq : find_deps w ss (fuel + 1) target dir v =
              (.err (.otherErr utf8Msg), v, [.probe target dir, .spawn loc]) := by
            simp only [find_deps, hloc]
            rw [if_neg hsys]
            simp only [hout]
          rw [heq]
          exact struct_leaf target rfl
        | okOut text =>
          cases hex : extract_deps text with
          | err m =>
            have heq : find_deps w ss (fuel + 1) target dir v =
                (.err (.otherErr m), v, [.probe target dir, .spawn loc]) := by
              simp only [find_deps, hloc]
              rw [if_neg hsys]
              simp only [hout, hex]
            rw [heq]
            exact struct_leaf target rfl
          | panicked m =>
            have heq : find_deps w ss (fuel + 1) target dir v =
                (.panicked m, v, [.probe target dir, .spawn loc]) := by
              simp only [find_deps, hloc]
              rw [if_neg hsys]
              simp only [hout, hex]
            rw [heq]
            exact struct_leaf target rfl
          | ok deps =>
            cases hfn : fileName loc with
            | none =>
              have heq : find_deps w ss (fuel + 1) target dir v =
                  (.panicked unwrapMsg, v, [.probe target dir, .spawn loc]) := by
                simp only [find_deps, hloc]
                rw [if_neg hsys]
                simp only [hout, hex, hfn]
              rw [heq]
              exact struct_leaf target rfl
            | some nm =>
              cases hpar : parent target with
              | none =>
                have heq : find_deps w ss (fuel + 1) target dir v =
                    (.panicked parentDirMsg, v, [.probe target dir, .spawn loc]) := by
                  simp only [find_deps, hloc]
                  rw [if_neg hsys]
                  simp only [hout, hex, hfn, hpar]
                rw [heq]
                exact struct_leaf target rfl
              | some tld =>
                obtain ⟨new, g1, g2, g3, g4⟩ :=
                  go_struct (fun d vv => find_deps w ss fuel d tld vv)
                    (fun d vv => ih d tld vv) deps v
                have heq : find_deps w ss (fuel + 1) target dir v =
                    (match (find_deps_go
                        (fun d vv => find_deps w ss fuel d tld vv) deps v).1 with
                      | .done cs => FRes.ok (Dependency.mk nm (some loc) cs)
                      | .panicked m => FRes.panicked m
                      | .outOfFuel => FRes.outOfFuel,
                     (find_deps_go
                        (fun d vv => find_deps w ss fuel d tld vv) deps v).2.1,
                     .probe target dir :: .spawn loc ::
                       (find_deps_go
                         (fun d vv => find_deps w ss fuel d tld vv) deps v).2.2) := by
                  simp only [find_deps, hloc]
                  rw [if_neg hsys]
                  simp only [hout, hex, hfn, hpar]
                rw [heq]
                refine ⟨new, g1, g2, g3, ?_⟩
                simp only [probeNames]
                exact g4.cons₂ target

/-! One-step equations of `find_deps`, one per stage outcome. -/

theorem find_deps_eq_notFound {w : World} {ss : Bool} {fuel : Nat}
    {target dir : S} (v : List S)
    (hloc : find_location w target dir = none) :
    find_deps w ss (fuel + 1) target dir v = (.err .notFound, v, [.probe target dir]) := by
  simp only [find_deps, hloc]

theorem find_deps_eq_skip {w : World} {ss : Bool} {fuel : Nat}
    {target dir loc : S} (v : List S)
    (hloc : find_location w target dir = some loc)
    (hsys : (!ss && containsSub sys32Pat (toLowerS loc)) = true) :
    find_deps w ss (fuel + 1) target dir v = (.err .skippedSystem, v, [.probe target dir]) := by
  simp only [find_deps, hloc]
  rw [if_pos hsys]

theorem find_deps_eq_spawnFail {w : World} {ss : Bool} {fuel : Nat}
    {target dir loc : S} (v : List S)
    (hloc : find_location w target dir = some loc)
    (hsys : ¬ (!ss && containsSub sys32Pat (toLowerS loc)) = true)
    (hout : w.output loc = .spawnFail) :
    find_deps w ss (fuel + 1) target dir v =
      (.panicked runFailMsg, v, [.probe target dir, .spawn loc]) := by
  simp only [find_deps, hloc]
  rw [if_neg hsys]
  simp only [hout]

theorem find_deps_eq_badUtf8 {w : World} {ss : Bool} {fuel : Nat}
    {target dir loc : S} (v : List S)
    (hloc : find_location w target dir = some loc)
    (hsys : ¬ (!ss && containsSub sys32Pat (toLowerS loc)) = true)
    (hout : w.output loc = .badUtf8) :
    find_deps w ss (fuel + 1) target dir v =
      (.err (.otherErr utf8Msg), v, [.probe target dir, .spawn loc]) := by
  simp only [find_deps, hloc]
  rw [if_neg hsys]
  simp only [hout]

theorem find_deps_eq_exErr {w : World} {ss : Bool} {fuel : Nat}
    {target dir loc text m : S} (v : List S)
    (hloc : find_location w target dir = some loc)
    (hsys : ¬ (!ss && containsSub sys32Pat (toLowerS loc)) = true)
    (hout : w.output loc = .okOut text)
    (hex : extract_deps text = .err m) :
    find_deps w ss (fuel + 1) target dir v =
      (.err (.otherErr m), v, [.probe target dir, .spawn loc]) := by
  simp only [find_deps, hloc]
  rw [if_neg hsys]
  simp only [hout, hex]

theorem find_deps_eq_exPanic {w : World} {ss : Bool} {fuel : Nat}
    {target dir loc text m : S} (v : List S)
    (hloc : find_location w target dir = some loc)
    (hsys : ¬ (!ss && containsSub sys32Pat (toLowerS loc)) = true)
    (hout : w.output loc = .okOut text)
    (hex : extract_deps text = .panicked m) :
    find_deps w ss (fuel + 1) target dir v =
      (.panicked m, v, [.probe target dir, .spawn loc]) := by
  simp only [find_deps, hloc]
  rw [if_neg hsys]
  simp only [hout, hex]

theorem find_deps_eq_fnNone {w : World} {ss : Bool} {fuel : Nat}
    {target dir loc text : S} {deps : List S} (v : List S)
    (hloc : find_location w target dir = some loc)
    (hsys : ¬ (!ss && containsSub sys32Pat (toLowerS loc)) = true)
    (hout : w.output loc = .okOut text)
    (hex : extract_deps text = .ok deps)
    (hfn : fileName loc = none) :
    find_deps w ss (fuel + 1) target dir v =
      (.panicked unwrapMsg, v, [.probe target dir, .spawn loc]) := by
  simp only [find_deps, hloc]
  rw [if_neg hsys]
  simp only [hout, hex, hfn]

theorem find_deps_eq_parNone {w : World} {ss : Bool} {fuel : Nat}
    {target dir loc text nm : S} {deps : List S} (v : List S)
    (hloc : find_location w target dir = some loc)
    (hsys : ¬ (!ss && containsSub sys32Pat (toLowerS loc)) = true)
    (hout : w.output loc = .okOut text)
    (hex : extract_deps text = .ok deps)
    (hfn : fileName loc = some nm)
    (hpar : parent target = none) :
    find_deps w ss (fuel + 1) target dir v =
      (.panicked parentDirMsg, v, [.probe target dir, .spawn loc]) := by
  simp only [find_deps, hloc]
  rw [if_neg hsys]
  simp only [hout, hex, hfn, hpar]

theorem find_deps_eq_rec {w : World} {ss : Bool} {fuel : Nat}
    {target dir loc text nm tld : S} {deps : List S} (v : List S)
    (hloc : find_location w target dir = some loc)
    (hsys : ¬ (!ss && containsSub sys32Pat (toLowerS loc)) = true)
    (hout : w.output loc = .okOut text)
    (hex : extract_deps text = .ok deps)
    (hfn : fileName loc = some nm)
    (hpar : parent target = some tld) :
    find_deps w ss (fuel + 1) target dir v =
      (match (find_deps_go (fun d vv => find_deps w ss fuel d tld vv) deps v).1 with
        | .done cs => FRes.ok (Dependency.mk nm (some loc) cs)
        | .panicked m => FRes.panicked m
        | .outOfFuel => FRes.outOfFuel,
       (find_deps_go (fun d vv => find_deps w ss fuel d tld vv) deps v).2.1,
       .probe target dir :: .spawn loc ::
         (find_deps_go (fun d vv => find_deps w ss fuel d tld vv) deps v).2.2) := by
  simp only [find_deps, hloc]
  rw [if_neg hsys]
  simp only [hout, hex, hfn, hpar]

/-! Termination: with all report names drawn from a finite list `U`, enough
fuel is never exhausted. -/

theorem filter_sublist_of_imp {p q : S → Bool} (l : List S)
    (h : ∀ a, p a = true → q a = true) :
    List.Sublist (l.filter p) (l.filter q) := by
  induction l with
  | nil => simp
  | cons a t ih =>
    by_cases hp : p a = true
    · rw [List.filter_cons_of_pos hp, List.filter_cons_of_pos (h a hp)]
      exact ih.cons₂ a
    · rw [List.filter_cons_of_neg (by simpa using hp)]
      by_cases hq : q a = true
      · rw [List.filter_cons_of_pos hq]
        exact ih.cons a
      · rw [List.filter_cons_of_neg (by simpa using hq)]
        exact ih

theorem fuelNeed_mono (U : List S) {v v' : List S} (h : ∀ x ∈ v, x ∈ v') :
    fuelNeed U v' ≤ fuelNeed U v := by
  unfold fuelNeed
  apply List.Sublist.length_le
  apply filter_sublist_of_imp
  intro a ha
  have ha' : a ∉ v' := by simpa using ha
  have : a ∉ v := fun hm => ha' (h a hm)
  simpa using this

theorem fuelNeed_insert_lt {U v : List S} {d : S} (hU : d ∈ U) (hd : d ∉ v) :
    fuelNeed U (d :: v) < fuelNeed U v := by
  unfold fuelNeed
  have hfe : U.filter (fun x => !(d :: v).contains x)
      = (U.filter (fun x => !v.contains x)).filter (fun x => !(x == d)) := by
    rw [List.filter_filter]
    apply List.filter_congr
    intro a _
    by_cases had : a = d <;> by_cases hav : a ∈ v <;>
      simp [had, hav, List.contains_cons, Bool.not_or, Bool.and_comm, beq_eq_decide]
  rw [hfe]
  apply List.length_filter_lt_length_iff_exists.mpr
  refine ⟨d, ?_, ?_⟩
  · exact List.mem_filter.mpr ⟨hU, by simpa using hd⟩
  · simp

theorem go_fuel (w : World) (ss : Bool) (fuel : Nat) (U : List S) (tld : S)
    (hfc : ∀ d vv, fuelNeed U vv < fuel →
      (find_deps w ss fuel d tld vv).1 ≠ FRes.outOfFuel) :
    ∀ deps v, (∀ d ∈ deps, d ∈ U) → fuelNeed U v ≤ fuel →
      (find_deps_go (fun d vv => find_deps w ss fuel d tld vv) deps v).1
        ≠ GRes.outOfFuel := by
  intro deps
  induction deps with
  | nil =>
    intro v _ _
    simp [find_deps_go]
  | cons dep rest ih =>
    intro v hdeps hv
    by_cases hvc : v.contains dep = true
    · have heq : find_deps_go (fun d vv => find_deps w ss fuel d tld vv) (dep :: rest) v
          = find_deps_go (fun d vv => find_deps w ss fuel d tld vv) rest v := by
        simp only [find_deps_go]
        rw [if_pos hvc]
      rw [heq]
      exact ih v (fun d hd => hdeps d (by simp [hd])) hv
    · have hdnv : dep ∉ v := by simpa using (Bool.not_eq_true _).mp hvc
      have hdU : dep ∈ U := hdeps dep (by simp)
      have hlt : fuelNeed U (dep :: v) < fuel :=
        lt_of_lt_of_le (fuelNeed_insert_lt hdU hdnv) hv
      have h1 := hfc dep (dep :: v) hlt
      obtain ⟨nc, hnc1, _, _, _⟩ := find_struct w ss fuel dep tld (dep :: v)
      have hv2 : fuelNeed U ((find_deps w ss fuel dep tld (dep :: v)).2.1) ≤ fuel := by
        rw [hnc1]
        refine le_trans (fuelNeed_mono U ?_) hv
        intro x hx
        simp [hx]
      rcases hr : find_deps w ss fuel dep tld (dep :: v) with ⟨r1, v2, evs⟩
      rw [hr] at h1 hv2
      simp only at h1 hv2
      have hrest := ih v2 (fun d hd => hdeps d (by simp [hd])) hv2
      cases r1 with
      | ok node =>
        have heq : find_deps_go (fun d vv => find_deps w ss fuel d tld vv) (dep :: rest) v
            = (match (find_deps_go (fun d vv => find_deps w ss fuel d tld vv) rest v2).1 with
                | .done cs => GRes.done (node :: cs)
                | g => g,
               (find_deps_go (fun d vv => find_deps w ss fuel d tld vv) rest v2).2.1,
               evs ++ (find_deps_go (fun d vv => find_deps w ss fuel d tld vv) rest v2).2.2) := by
          simp only [find_deps_go]
          rw [if_neg hvc, hr]
        rw [heq]
        cases hgr : (find_deps_go (fun d vv => find_deps w ss fuel d tld vv) rest v2).1 with
        | done cs => simp
        | panicked m => simp
        | outOfFuel => exact absurd hgr hrest
      | err e =>
        cases e with
        | skippedSystem =>
          have heq : find_deps_go (fun d vv => find_deps w ss fuel d tld vv) (dep :: rest) v
              = ((find_deps_go (fun d vv => find_deps w ss fuel d tld vv) rest v2).1,
                 (find_deps_go (fun d vv => find_deps w ss fuel d tld vv) rest v2).2.1,
                 evs ++ (find_deps_go (fun d vv => find_deps w ss fuel d tld vv) rest v2).2.2) := by
            simp only [find_deps_go]
            rw [if_neg hvc, hr]
          rw [heq]
          exact hrest
        | notFound =>
          have heq : find_deps_go (fun d vv => find_deps w ss fuel d tld vv) (dep :: rest) v
              = (match (find_deps_go (fun d vv => find_deps w ss fuel d tld vv) rest v2).1 with
                  | .done cs => GRes.done (Dependency.mk dep none [] :: cs)
                  | g => g,
                 (find_deps_go (fun d vv => find_deps w ss fuel d tld vv) rest v2).2.1,
                 evs ++ (find_deps_go (fun d vv => find_deps w ss fuel d tld vv) rest v2).2.2) := by
            simp only [find_deps_go]
            rw [if_neg hvc, hr]
          rw [heq]
          cases hgr : (find_deps_go (fun d vv => find_deps w ss fuel d tld vv) rest v2).1 with
          | done cs => simp
          | panicked m => simp
          | outOfFuel => exact absurd hgr hrest
        | otherErr m =>
          have heq : find_deps_go (fun d vv => find_deps w ss fuel d tld vv) (dep :: rest) v
              = (match (find_deps_go (fun d vv => find_deps w ss fuel d tld vv) rest v2).1 with
                  | .done cs => GRes.done (Dependency.mk dep none [] :: cs)
                  | g => g,
                 (find_deps_go (fun d vv => find_deps w ss fuel d tld vv) rest v2).2.1,
                 evs ++ (find_deps_go (fun d vv => find_deps w ss fuel d tld vv) rest v2).2.2) := by
            simp only [find_deps_go]
            rw [if_neg hvc, hr]
          rw [heq]
          cases hgr : (find_deps_go (fun d vv => find_deps w ss fuel d tld vv) rest v2).1 with
          | done cs => simp
          | panicked m2 => simp
          | outOfFuel => exact absurd hgr hrest
      | panicked m =>
        have heq : find_deps_go (fun d vv => find_deps w ss fuel d tld vv) (dep :: rest) v
            = (.panicked m, v2, evs) := by
          simp only [find_deps_go]
          rw [if_neg hvc, hr]
        rw [heq]
        simp
      | outOfFuel => exact absurd rfl h1

theorem find_fuel (w : World) (ss : Bool) (U : List S) (hw : ReportNamesIn w U) :
    ∀ fuel target dir v, fuelNeed U v < fuel →
      (find_deps w ss fuel target dir v).1 ≠ FRes.outOfFuel := by
  intro fuel
  induction fuel with
  | zero =>
    intro target dir v h
    omega
  | succ fuel ih =>
    intro target dir v hv
    cases hloc : find_location w target dir with
    | none => rw [find_deps_eq_notFound v hloc]; simp
    | some loc =>
      by_cases hsys : (!ss && containsSub sys32Pat (toLowerS loc)) = true
      · rw [find_deps_eq_skip v hloc hsys]; simp
      · cases hout : w.output loc with
        | spawnFail => rw [find_deps_eq_spawnFail v hloc hsys hout]; simp
        | badUtf8 => rw [find_deps_eq_badUtf8 v hloc hsys hout]; simp
        | okOut text =>
          cases hex : extract_deps text with
          | err m => rw [find_deps_eq_exErr v hloc hsys hout hex]; simp
          | panicked m => rw [find_deps_eq_exPanic v hloc hsys hout hex]; simp
          | ok deps =>
            cases hfn : fileName loc with
            | none => rw [find_deps_eq_fnNone v hloc hsys hout hex hfn]; simp
            | some nm =>
              cases hpar : parent target with
              | none => rw [find_deps_eq_parNone v hloc hsys hout hex hfn hpar]; simp
              | some tld =>
                rw [find_deps_eq_rec v hloc hsys hout hex hfn hpar]
                have hdeps : ∀ d ∈ deps, d ∈ U := hw loc text deps hout hex
                have hgo := go_fuel w ss fuel U tld
                  (fun d vv hlt => ih d tld vv hlt) deps v hdeps (by omega)
                cases hgr : (find_deps_go
                    (fun d vv => find_deps w ss fuel d tld vv) deps v).1 with
                | done cs => simp
                | panicked m => simp
                | outOfFuel => exact absurd hgr hgo

/-- C1: across one run of `find_deps`, each name enters the visited set at
most once (`new` is duplicate-free and disjoint from the initial set, and the
final set is `new ++ v`), the names probed by `find_location` form a sublist
of the call's target followed by each freshly inserted name exactly once (so
once a name is present no further resolution attempt or recursion happens for
it, under any parent), and — whenever every report name lies in a finite list
`U` and fuel exceeds the number of unvisited `U`-names — the run does not
exhaust its fuel: self-referential and cyclic graphs terminate. -/
theorem c1_visited_once (w : World) (ss : Bool) (fuel : Nat) (target dir : S)
    (v U : List S) (hU : ReportNamesIn w U) (hfuel : fuelNeed U v < fuel) :
    ∃ new, (find_deps w ss fuel target dir v).2.1 = new ++ v
      ∧ (∀ x ∈ new, x ∉ v) ∧ new.Nodup
      ∧ List.Sublist (probeNames (find_deps w ss fuel target dir v).2.2)
          (target :: new.reverse)
      ∧ (find_deps w ss fuel target dir v).1 ≠ FRes.outOfFuel := by
  obtain ⟨new, h1, h2, h3, h4⟩ := find_struct w ss fuel target dir v
  exact ⟨new, h1, h2, h3, h4, find_fuel w ss U hU fuel target dir v hfuel⟩

theorem reportNamesIn_wCyc : ReportNamesIn wCyc [nA, nB] := by
  intro loc text deps hout hex d hd
  have h1 : wCyc.output loc = (if loc = pA then UtilOut.okOut rCycA
      else if loc = pB then UtilOut.okOut rCycB else UtilOut.okOut emptyReport) := rfl
  rw [h1] at hout
  split_ifs at hout
  · cases hout
    rw [show extract_deps rCycA = PRes.ok [nB] from by decide] at hex
    cases hex
    simp only [List.mem_singleton] at hd
    subst hd
    simp
  · cases hout
    rw [show extract_deps rCycB = PRes.ok [nA, nB] from by decide] at hex
    cases hex
    exact hd
  · cases hout
    rw [show extract_deps emptyReport = PRes.ok [] from by decide] at hex
    cases hex
    simp at hd

/-- C1 witness: the visited-once theorem applied to the cyclic world `wCyc`
(`a.dll` → `b.dll` → {`a.dll`, `b.dll`}), starting as `main` does with the
root's file name in the visited set. -/
theorem c1_witness :
    ∃ new, (find_deps wCyc false 5 pA dApp [nA]).2.1 = new ++ [nA]
      ∧ (∀ x ∈ new, x ∉ [nA]) ∧ new.Nodup
      ∧ List.Sublist (probeNames (find_deps wCyc false 5 pA dApp [nA]).2.2)
          (pA :: new.reverse)
      ∧ (find_deps wCyc false 5 pA dApp [nA]).1 ≠ FRes.outOfFuel :=
  c1_visited_once wCyc false 5 pA dApp [nA] [nA, nB] reportNamesIn_wCyc (by decide)

/-- C2 counterexample: with `show_system = false`, the module named
`api-ms-win-core-util-l1-1-0.dll` both appears in the output tree (with its
resolved app-directory location) and has its location probed — there is no
name-prefix filter in the code and no skip before location lookup. -/
theorem c2_counterexample :
    (find_deps w2 false 5 pApp dApp [nApp]).1 =
      .ok (.mk nApp (some pApp) [.mk nApims (some pApims) []]) ∧
    Ev.probe nApims dApp ∈ (find_deps w2 false 5 pApp dApp [nApp]).2.2 ∧
    containsSub sys32Pat (toLowerS pApims) = false := by
  refine ⟨rfl, by decide, by decide⟩

/-- C2 amended: there is no name-based pre-filter: for every call of the
resolver, the very first event is the location probe of the target, whatever
its name — filtering happens only after (and on) the resolved location. -/
theorem c2_amended (w : World) (ss : Bool) (fuel : Nat) (target dir : S)
    (v : List S) :
    ∃ r, (find_deps w ss (fuel + 1) target dir v).2.2 = Ev.probe target dir :: r := by
  cases hloc : find_location w target dir with
  | none => exact ⟨[], by rw [find_deps_eq_notFound v hloc]⟩
  | some loc =>
    by_cases hsys : (!ss && containsSub sys32Pat (toLowerS loc)) = true
    · exact ⟨[], by rw [find_deps_eq_skip v hloc hsys]⟩
    · cases hout : w.output loc with
      | spawnFail =>
        exact ⟨[.spawn loc], by rw [find_deps_eq_spawnFail v hloc hsys hout]⟩
      | badUtf8 =>
        exact ⟨[.spawn loc], by rw [find_deps_eq_badUtf8 v hloc hsys hout]⟩
      | okOut text =>
        cases hex : extract_deps text with
        | err m =>
          exact ⟨[.spawn loc], by rw [find_deps_eq_exErr v hloc hsys hout hex]⟩
        | panicked m =>
          exact ⟨[.spawn loc], by rw [find_deps_eq_exPanic v hloc hsys hout hex]⟩
        | ok deps =>
          cases hfn : fileName loc with
          | none =>
            exact ⟨[.spawn loc], by rw [find_deps_eq_fnNone v hloc hsys hout hex hfn]⟩
          | some nm =>
            cases hpar : parent target with
            | none =>
              exact ⟨[.spawn loc],
                by rw [find_deps_eq_parNone v hloc hsys hout hex hfn hpar]⟩
            | some tld =>
              refine ⟨.spawn loc :: (find_deps_go
                (fun d vv => find_deps w ss fuel d tld vv) deps v).2.2, ?_⟩
              rw [find_deps_eq_rec v hloc hsys hout hex hfn hpar]

/-- C3: evaluation at the failing input.  The recursion out of `mylib.dll`
probes `sub.dll` with preferred directory `""` — the parent of the bare
argument `mylib.dll` (src line 178 takes `target.parent()`) — and never with
`d:\app`, the parent of `mylib.dll`'s resolved location, which is what the
claim prescribes. -/
theorem c3_bug_search_dir :
    Ev.probe nSub [] ∈ (find_deps w3 false 5 pApp dApp [nApp]).2.2 ∧
    Ev.probe nSub dApp ∉ (find_deps w3 false 5 pApp dApp [nApp]).2.2 ∧
    find_location w3 nMy dApp = some pMy ∧
    parent pMy = some dApp ∧
    dApp ≠ ([] : S) := by
  refine ⟨by decide, by decide, by decide, by decide, by decide⟩

/-- C4 counterexample: dumpbin is located, the root target resolves nowhere,
and yet the whole run exits 0 — `main` never unwraps the `find_deps` result
(src line 74 has no `?`), it just prints an empty table. -/
theorem c4_counterexample :
    main_run w4 args4 5 = .exit 0 ∧ find_location w4 pApp dApp = none := by
  exact ⟨by decide, by decide⟩

/-- C4 amended: the exit status is 1 when the utility cannot be located, and
a panic (spawn failure, missing `Summary`, missing parent or file name)
aborts the process with a non-zero status; but the resolution `Result` itself
is discarded by `main`: any `Err` from `find_deps` — including an
unresolvable root and report parse errors — still exits 0. -/
theorem c4_amended :
    (∀ (w : World) (args : Args) (fuel : Nat),
      args.dumpbin = none → w.dumpbinFound = none →
        main_run w args fuel = .exit 1) ∧
    (∀ (w : World) (args : Args) (fuel : Nat) (db td f : S) (e : DErr),
      args.dumpbin = some db → parent args.target = some td →
      fileName args.target = some f →
      (find_deps w args.show_system fuel args.target td [f]).1 = .err e →
        main_run w args fuel = .exit 0) ∧
    (∀ (w : World) (args : Args) (fuel : Nat) (db td f m : S),
      args.dumpbin = some db → parent args.target = some td →
      fileName args.target = some f →
      (find_deps w args.show_system fuel args.target td [f]).1 = .panicked m →
        main_run w args fuel = .panicked m) := by
  refine ⟨?_, ?_, ?_⟩
  · intro w args fuel h1 h2
    simp only [main_run, h1, h2]
  · intro w args fuel db td f e h1 h2 h3 h4
    simp only [main_run, h1, h2, h3, h4]
  · intro w args fuel db td f m h1 h2 h3 h4
    simp only [main_run, h1, h2, h3, h4]

/-- C4 witness: the amended theorem's error conjunct at a concrete world with
an unresolvable root: exit 0. -/
theorem c4_witness : main_run w4 args4b 3 = .exit 0 :=
  c4_amended.2.1 w4 args4b 3 pDump dApp nApp .notFound rfl (by decide) (by decide) rfl

/-- C5 counterexample: a non-root node (`bad.dll`) whose report is
undecodable does not abort the top-level resolution: the root still returns a
dependency tree, with `bad.dll` degraded to a visible leaf with no path. -/
theorem c5_counterexample :
    (find_deps w5 false 5 pApp dApp [nApp]).1 =
      .ok (.mk nApp (some pApp) [.mk nBad none []]) ∧
    w5.output pBad = .badUtf8 :=
  ⟨rfl, rfl⟩

/-- C5 amended: only a spawn failure aborts the whole run (it is a panic,
at any node); an undecodable report at a non-root node is contained by the
parent (src lines 194..204 catch every non-skip error): the dependency is
recorded as a not-found-style leaf and the parent's tree is still produced. -/
theorem c5_amended (w : World) (ss : Bool) (fuel : Nat)
    (target dir loc text d nm pdir dloc : S) (v : List S)
    (hloc : find_location w target dir = some loc)
    (hsys : ¬ (!ss && containsSub sys32Pat (toLowerS loc)) = true)
    (hout : w.output loc = .okOut text)
    (hex : extract_deps text = .ok [d])
    (hfn : fileName loc = some nm)
    (hpar : parent target = some pdir)
    (hdv : ¬ v.contains d = true)
    (hdloc : find_location w d pdir = some dloc)
    (hdsys : ¬ (!ss && containsSub sys32Pat (toLowerS dloc)) = true) :
    (w.output dloc = .badUtf8 →
      (find_deps w ss (fuel + 2) target dir v).1 =
        .ok (.mk nm (some loc) [.mk d none []])) ∧
    (w.output dloc = .spawnFail →
      (find_deps w ss (fuel + 2) target dir v).1 = .panicked runFailMsg) := by
  constructor
  · intro hdout
    rw [show fuel + 2 = (fuel + 1) + 1 from rfl,
      find_deps_eq_rec v hloc hsys hout hex hfn hpar]
    have hchild : find_deps w ss (fuel + 1) d pdir (d :: v) =
        (.err (.otherErr utf8Msg), d :: v, [.probe d pdir, .spawn dloc]) :=
      find_deps_eq_badUtf8 (d :: v) hdloc hdsys hdout
    have hgo : find_deps_go (fun dd vv => find_deps w ss (fuel + 1) dd pdir vv) [d] v =
        (.done [Dependency.mk d none []], d :: v,
         [Ev.probe d pdir, Ev.spawn dloc]) := by
      simp only [find_deps_go]
      rw [if_neg hdv, hchild]
      rfl
    rw [hgo]
  · intro hdout
    rw [show fuel + 2 = (fuel + 1) + 1 from rfl,
      find_deps_eq_rec v hloc hsys hout hex hfn hpar]
    have hchild : find_deps w ss (fuel + 1) d pdir (d :: v) =
        (.panicked runFailMsg, d :: v, [.probe d pdir, .spawn dloc]) :=
      find_deps_eq_spawnFail (d :: v) hdloc hdsys hdout
    have hgo : find_deps_go (fun dd vv => find_deps w ss (fuel + 1) dd pdir vv) [d] v =
        (.panicked runFailMsg, d :: v, [Ev.probe d pdir, Ev.spawn dloc]) := by
      simp only [find_deps_go]
      rw [if_neg hdv, hchild]
    rw [hgo]

/-- C5 witness: the containment conjunct of the amended theorem at the world
`w5`, whose child `bad.dll` has an undecodable report. -/
theorem c5_witness :
    (find_deps w5 false 7 pApp dApp [nApp]).1 =
      .ok (.mk nApp (some pApp) [.mk nBad none []]) :=
  (c5_amended w5 false 5 pApp dApp pApp r5root nBad nApp dApp pBad [nApp]
    (by decide) (by decide) rfl (by decide) (by decide) (by decide) (by decide)
    (by decide) (by decide)).1 rfl

/-- C8: location resolution looks in the preferred directory first and falls
back to the standard executable search path only when that fails; when the
name exists in the preferred directory, the preferred-directory path is
returned — even if the name also exists on the search path. -/
theorem c8_search_order :
    (∀ (w : World) (name dir : S), hasSep name = false →
      w.fs.contains (joinPath dir name) = true →
      find_location w name dir = some (joinPath dir name)) ∧
    (∀ (w : World) (name dir : S), hasSep name = false →
      w.fs.contains (joinPath dir name) = false →
      find_location w name dir = whichPath w name) := by
  constructor
  · intro w name dir h1 h2
    unfold find_location whichIn
    simp only [h1, Bool.false_eq_true, if_false, h2, if_true]
  · intro w name dir h1 h2
    unfold find_location whichIn
    simp only [h1, Bool.false_eq_true, if_false, h2]

/-- C8 witness: in `w8`, `x.dll` exists both in the preferred directory
`d:\app` and in the PATH directory `c:\sys`; the preferred-directory copy
wins (while the fallback alone would have returned the PATH copy). -/
theorem c8_witness :
    find_location w8 nX dApp = some (joinPath dApp nX) ∧
    whichPath w8 nX = some ("c:\\sys\\x.dll".data) :=
  ⟨c8_search_order.1 w8 nX dApp (by decide) (by decide), by decide⟩

/-- C9 counterexample: with `show_system = false`, a module resolving into a
platform SDK tree (`c:\program files (x86)\windows kits\10\bin\x64`) is NOT
excluded: the code only tests the resolved path for the substring
`windows\system32`, so `foo.dll` gets a node in the output tree. -/
theorem c9_counterexample :
    (find_deps w9 false 5 pApp dApp [nApp]).1 =
      .ok (.mk nApp (some pApp) [.mk nFoo (some pFoo) []]) ∧
    containsSub sys32Pat (toLowerS pFoo) = false :=
  ⟨rfl, by decide⟩

/-- C9 amended: with `show_system = false`, a module whose resolved location
contains `windows\system32` (case-insensitively) is fully suppressed: the
call returns the skip signal, produces no node, leaves the visited set
unchanged, and its trace holds only the one probe — no utility invocation,
no recursion.  Only this substring test exists; SDK trees are not filtered. -/
theorem c9_amended (w : World) (fuel : Nat) (target dir loc : S) (v : List S)
    (hloc : find_location w target dir = some loc)
    (hsys : containsSub sys32Pat (toLowerS loc) = true) :
    find_deps w false (fuel + 1) target dir v =
      (.err .skippedSystem, v, [.probe target dir]) :=
  find_deps_eq_skip v hloc (by simp [hsys])

/-- C9 witness: the amended theorem on `kernel32.dll` resolving into
`c:\windows\system32`. -/
theorem c9_witness :
    find_deps wSys false 4 nK32 dApp [nApp] =
      (.err .skippedSystem, [nApp], [.probe nK32 dApp]) :=
  c9_amended wSys 3 nK32 dApp pK32 [nApp] (by decide) (by decide)

end FtsDepends
